import Mathlib

/-!
Verification of the `trace` structured-logging facade (a thin wrapper around
the zap engine).  Strings are embedded as `List Char`; a Go `error` value is
embedded as `Option (List Char)` carrying its message (`none` is the nil
error).  The external zap engine is modelled by `ZapLogger`, whose emission
behaviour follows the spec's description of the engine contract (append a
leveled record to every sink when the record's level is enabled).
-/

set_option maxHeartbeats 1000000

namespace Trace

/-- Typed field value: the facade builds string, int and bool fields. -/
inductive FieldVal where
  | str (s : List Char)
  | intVal (i : Int)
  | boolVal (b : Bool)
deriving DecidableEq

/-- A structured log field: a key paired with a typed value (zap `Field`). -/
structure Field where
  key : List Char
  val : FieldVal
deriving DecidableEq

/-- Embedding of `zap.String(key, val)`: a string-valued field. -/
def zapString (k v : List Char) : Field :=
  ⟨k, FieldVal.str v⟩

/-- Membership test used by `replaceAll`: whether `pat` is a prefix of `s`
(byte-wise comparison, as Go string search does). -/
def hasPre : List Char → List Char → Bool
  | [], _ => true
  | _ :: _, [] => false
  | p :: ps, c :: cs => (p == c) && hasPre ps cs

/-- Embedding of Go `strings.ReplaceAll(s, pat, rep)`: replace every
non-overlapping occurrence of `pat` in `s` by `rep`, scanning left to right.
(The facade only calls it with non-empty, single-character patterns; an empty
pattern is treated as never matching here.) -/
def replaceAll (s pat rep : List Char) : List Char :=
  match s with
  | [] => []
  | c :: cs =>
    if pat ≠ [] ∧ hasPre pat (c :: cs) = true then
      rep ++ replaceAll ((c :: cs).drop pat.length) pat rep
    else
      c :: replaceAll cs pat rep
termination_by s.length
decreasing_by
  · rename_i h
    have hp : 0 < pat.length := List.length_pos.mpr h.1
    simp [List.length_drop]
    omega
  · simp

/-- The literal separator `" | "` that replaces newlines and tabs. -/
def sepChars : List Char := [' ', '|', ' ']

/-- Embedding of `formatError` (logger.go): nil errors render as the empty
string; otherwise every `"\n"` is replaced by `" | "`, then every `"\t"`. -/
def formatError : Option (List Char) → List Char
  | none => []
  | some m => replaceAll (replaceAll m ['\n'] sepChars) ['\t'] sepChars

/-- The field key `"error"` used by `Err`. -/
def errorKey : List Char := ['e', 'r', 'r', 'o', 'r']

/-- Embedding of `Err` (logger.go): a field keyed `"error"`, empty string for
a nil error, otherwise the formatted message. -/
def Err : Option (List Char) → Field
  | none => zapString errorKey []
  | some e => zapString errorKey (formatError (some e))

/-- Character-wise expansion: replace each character of `s` by `f c` and
concatenate.  Pure helper used to characterise single-character
`replaceAll` passes. -/
def expandBy (f : Char → List Char) : List Char → List Char
  | [] => []
  | c :: cs => f c ++ expandBy f cs

/-- Spec-side definition (spec 4.1): the error message with every newline and
every tab character replaced, simultaneously, by the literal separator
`" | "`.  Stated from the spec's words, to be compared with `formatError`. -/
def specReplaceNLTab (s : List Char) : List Char :=
  expandBy (fun c => if c = '\n' ∨ c = '\t' then sepChars else [c]) s

/-- Log level constants (zapcore numeric levels). -/
def DebugLevel : Int := -1

/-- Info level (zapcore numeric value 0). -/
def InfoLevel : Int := 0

/-- Warn level (zapcore numeric value 1). -/
def WarnLevel : Int := 1

/-- The error level (zapcore numeric value 2). -/
def ErrorLevel : Int := 2

/-- The fatal level (zapcore numeric value 5). -/
def FatalLevel : Int := 5

/-- Embedding of `DisabledLevel()` (logger.go): `zapcore.Level(127)`, a
sentinel strictly above all real levels. -/
def DisabledLevel : Int := 127

/-- An output destination built by `New`: standard output or the optional
log file. -/
inductive Sink where
  | stdout
  | logFile
deriving DecidableEq

/-- One emitted log record: which sink received it, the logger's name
segments, the logger's accumulated fields followed by the call-site fields,
the record level and the message. -/
structure Record where
  sink : Sink
  name : List (List Char)
  flds : List Field
  level : Int
  msg : List Char
deriving DecidableEq

/-- Model of the external zap engine handle (`*zap.Logger`): name segments
(zap joins them with dots), fields accumulated via `With`, the core's
minimum level, and the sinks the core writes to. -/
structure ZapLogger where
  name : List (List Char)
  fields : List Field
  level : Int
  sinks : List Sink
deriving DecidableEq

/-- Engine contract (spec 4.2): append a leveled record, carrying the
accumulated fields then the call-site fields, to every sink when the level
is enabled for the core; otherwise emit nothing. -/
def ZapLogger.logAt (z : ZapLogger) (lvl : Int) (msg : List Char)
    (fs : List Field) : List Record :=
  if z.level ≤ lvl then
    z.sinks.map (fun s => ⟨s, z.name, z.fields ++ fs, lvl, msg⟩)
  else
    []

/-- Engine contract of `zap.Logger.Named`: append one name segment. -/
def ZapLogger.Named (z : ZapLogger) (n : List Char) : ZapLogger :=
  { z with name := z.name ++ [n] }

/-- Engine contract of `zap.Logger.With`: same core (sinks and level), the
given fields appended to the accumulated ones. -/
def ZapLogger.With (z : ZapLogger) (fs : List Field) : ZapLogger :=
  { z with fields := z.fields ++ fs }

/-- Embedding of `NoopLogger` (interface.go): a struct carrying no state. -/
structure NoopLogger where
deriving DecidableEq

/-- Embedding of `NoopLogger.Debug` (interface.go): empty body, no record. -/
def NoopLogger.Debug (_n : NoopLogger) (_msg : List Char)
    (_fs : List Field) : List Record := []

/-- Embedding of `NoopLogger.Info` (interface.go): empty body, no record. -/
def NoopLogger.Info (_n : NoopLogger) (_msg : List Char)
    (_fs : List Field) : List Record := []

/-- Embedding of `NoopLogger.Warn` (interface.go): empty body, no record. -/
def NoopLogger.Warn (_n : NoopLogger) (_msg : List Char)
    (_fs : List Field) : List Record := []

/-- Embedding of `NoopLogger.Error` (interface.go): empty body, no record. -/
def NoopLogger.Error (_n : NoopLogger) (_msg : List Char)
    (_fs : List Field) : List Record := []

/-- Embedding of `NoopLogger.Fatal` (interface.go): empty body, no record. -/
def NoopLogger.Fatal (_n : NoopLogger) (_msg : List Char)
    (_fs : List Field) : List Record := []

/-- Embedding of `NoopLogger.Zap` (interface.go lines 36-38): it returns
`nil` for the underlying zap logger. -/
def NoopLogger.Zap (_n : NoopLogger) : Option ZapLogger := none

/-- Embedding of `sugarLogger` (logger.go, first variant): wraps an optional
underlying engine handle (`Log *zap.Logger`, which may be nil). -/
structure sugarLogger where
  Log : Option ZapLogger
deriving DecidableEq

/-- Embedding of `SugarLogger` (logger.go, second variant): structurally the
same wrapper around an optional engine handle. -/
structure SugarLogger where
  Log : Option ZapLogger
deriving DecidableEq

/-- A `Logger` interface value: the no-op variant or one of the two concrete
wrapper variants.  (A nil interface value is embedded as `Option Logger`
where it can occur.) -/
inductive Logger where
  | noop (n : NoopLogger)
  | sugarL (l : sugarLogger)
  | sugarB (l : SugarLogger)
deriving DecidableEq

/-- Embedding of `sugarLogger.Debug` (logger.go): forwards to the engine
only when the handle is present (`if l.Log != nil`). -/
def sugarLogger.Debug (l : sugarLogger) (msg : List Char)
    (fs : List Field) : List Record :=
  match l.Log with
  | some z => z.logAt DebugLevel msg fs
  | none => []

/-- Embedding of `sugarLogger.Info` (logger.go): guarded by the nil check. -/
def sugarLogger.Info (l : sugarLogger) (msg : List Char)
    (fs : List Field) : List Record :=
  match l.Log with
  | some z => z.logAt InfoLevel msg fs
  | none => []

/-- Embedding of `sugarLogger.Warn` (logger.go): guarded by the nil check. -/
def sugarLogger.Warn (l : sugarLogger) (msg : List Char)
    (fs : List Field) : List Record :=
  match l.Log with
  | some z => z.logAt WarnLevel msg fs
  | none => []

/-- Embedding of `sugarLogger.Error` (logger.go): guarded by the nil
check. -/
def sugarLogger.Error (l : sugarLogger) (msg : List Char)
    (fs : List Field) : List Record :=
  match l.Log with
  | some z => z.logAt ErrorLevel msg fs
  | none => []

/-- Embedding of `sugarLogger.Fatal` (logger.go): guarded by the nil check
(process termination is delegated to the engine and not modelled). -/
def sugarLogger.Fatal (l : sugarLogger) (msg : List Char)
    (fs : List Field) : List Record :=
  match l.Log with
  | some z => z.logAt FatalLevel msg fs
  | none => []

/-- Embedding of `sugarLogger.Zap` (logger.go): returns the wrapped handle
as is. -/
def sugarLogger.Zap (l : sugarLogger) : Option ZapLogger := l.Log

/-- Embedding of `sugarLogger.With` (logger.go lines 125-130): on an absent
handle the receiver itself is returned; otherwise a new wrapper around
`l.Log.With(fields...)`.  (The `l == nil` receiver case of the source has no
counterpart here, since a Lean receiver is always a value.) -/
def sugarLogger.With (l : sugarLogger) (fs : List Field) : Logger :=
  match l.Log with
  | none => Logger.sugarL l
  | some z => Logger.sugarL ⟨some (z.With fs)⟩

/-- Embedding of `sugarLogger.Named` (logger.go lines 133-138): on an absent
handle the receiver itself is returned; otherwise a new wrapper around
`l.Log.Named(name)`. -/
def sugarLogger.Named (l : sugarLogger) (n : List Char) : Logger :=
  match l.Log with
  | none => Logger.sugarL l
  | some z => Logger.sugarL ⟨some (z.Named n)⟩

/-- Embedding of `SugarLogger.Debug` (logger.go, second variant): identical
nil-guarded forwarding. -/
def SugarLogger.Debug (l : SugarLogger) (msg : List Char)
    (fs : List Field) : List Record :=
  match l.Log with
  | some z => z.logAt DebugLevel msg fs
  | none => []

/-- Embedding of `SugarLogger.Info` (logger.go, second variant). -/
def SugarLogger.Info (l : SugarLogger) (msg : List Char)
    (fs : List Field) : List Record :=
  match l.Log with
  | some z => z.logAt InfoLevel msg fs
  | none => []

/-- Embedding of `SugarLogger.Warn` (logger.go, second variant). -/
def SugarLogger.Warn (l : SugarLogger) (msg : List Char)
    (fs : List Field) : List Record :=
  match l.Log with
  | some z => z.logAt WarnLevel msg fs
  | none => []

/-- Embedding of `SugarLogger.Error` (logger.go, second variant). -/
def SugarLogger.Error (l : SugarLogger) (msg : List Char)
    (fs : List Field) : List Record :=
  match l.Log with
  | some z => z.logAt ErrorLevel msg fs
  | none => []

/-- Embedding of `SugarLogger.Fatal` (logger.go, second variant). -/
def SugarLogger.Fatal (l : SugarLogger) (msg : List Char)
    (fs : List Field) : List Record :=
  match l.Log with
  | some z => z.logAt FatalLevel msg fs
  | none => []

/-- Embedding of `SugarLogger.Zap` (logger.go, second variant). -/
def SugarLogger.Zap (l : SugarLogger) : Option ZapLogger := l.Log

/-- Interface dispatch of `Debug` over the variants. -/
def Logger.Debug : Logger → List Char → List Field → List Record
  | Logger.noop n, msg, fs => n.Debug msg fs
  | Logger.sugarL l, msg, fs => l.Debug msg fs
  | Logger.sugarB l, msg, fs => l.Debug msg fs

/-- Interface dispatch of `Info` over the variants. -/
def Logger.Info : Logger → List Char → List Field → List Record
  | Logger.noop n, msg, fs => n.Info msg fs
  | Logger.sugarL l, msg, fs => l.Info msg fs
  | Logger.sugarB l, msg, fs => l.Info msg fs

/-- Interface dispatch of `Warn` over the variants. -/
def Logger.Warn : Logger → List Char → List Field → List Record
  | Logger.noop n, msg, fs => n.Warn msg fs
  | Logger.sugarL l, msg, fs => l.Warn msg fs
  | Logger.sugarB l, msg, fs => l.Warn msg fs

/-- Interface dispatch of `Error` over the variants. -/
def Logger.Error : Logger → List Char → List Field → List Record
  | Logger.noop n, msg, fs => n.Error msg fs
  | Logger.sugarL l, msg, fs => l.Error msg fs
  | Logger.sugarB l, msg, fs => l.Error msg fs

/-- Interface dispatch of `Fatal` over the variants. -/
def Logger.Fatal : Logger → List Char → List Field → List Record
  | Logger.noop n, msg, fs => n.Fatal msg fs
  | Logger.sugarL l, msg, fs => l.Fatal msg fs
  | Logger.sugarB l, msg, fs => l.Fatal msg fs

/-- Interface dispatch of `Zap` over the variants. -/
def Logger.Zap : Logger → Option ZapLogger
  | Logger.noop n => n.Zap
  | Logger.sugarL l => l.Zap
  | Logger.sugarB l => l.Zap

/-- Embedding of `NewNoopLogger` (logger.go): returns the no-op variant. -/
def NewNoopLogger : Logger := Logger.noop ⟨⟩

/-- Embedding of `NewChildLogger` (logger.go lines 73-87): no-op when the
parent interface value is nil or the parent's engine handle is nil;
otherwise a wrapper around `parent.Zap().Named(prefix)` for a non-empty
prefix, or around `parent.Zap()` itself for an empty one. -/
def NewChildLogger (parent : Option Logger) (pre : List Char) : Logger :=
  match parent with
  | none => NewNoopLogger
  | some p =>
    match p.Zap with
    | none => NewNoopLogger
    | some z =>
      if pre ≠ [] then
        Logger.sugarL ⟨some (z.Named pre)⟩
      else
        Logger.sugarL ⟨some z⟩

/-- Embedding of `var defaultLogger Logger = &NoopLogger{}` (interface.go
line 41): the initial value of the process-wide default slot. -/
def initialDefaultLogger : Logger := Logger.noop ⟨⟩

/-- Embedding of `SetDefaultLogger` (interface.go lines 44-50): returns the
new value of the process-wide slot; the old value is overwritten.  A nil
argument resets the slot to a fresh `NoopLogger`. -/
def SetDefaultLogger (_slot : Logger) (logger : Option Logger) : Logger :=
  match logger with
  | some l => l
  | none => Logger.noop ⟨⟩

/-- Embedding of the legacy `SetDefaultLogger` variant (unnamed/part_000
lines 5-7): stores the argument unconditionally, with no nil guard, so the
slot there can be left holding a nil interface value. -/
def setDefaultLoggerLegacy (_slot : Option Logger) (logger : Option Logger) :
    Option Logger := logger

/-- Embedding of `GetDefaultLogger` (interface.go): reads the slot. -/
def GetDefaultLogger (slot : Logger) : Logger := slot

/-- A value stored in a context under the private logger key: either a
`Logger` interface value (possibly nil) or a value of some other type. -/
inductive GoValue where
  | loggerVal (l : Option Logger)
  | otherVal
deriving DecidableEq

/-- A context, restricted to what `LoggerFromContext` observes: the value
associated with the private key `loggerCtxKey`, or `none` when absent. -/
abbrev Ctx := Option GoValue

/-- Embedding of `LoggerToContext` (logger.go lines 164-166): attach the
logger under the private key, shadowing any previous association. -/
def LoggerToContext (_ctx : Ctx) (l : Logger) : Ctx :=
  some (GoValue.loggerVal (some l))

/-- Embedding of `LoggerFromContext` (logger.go lines 173-180): return the
attached value when it is a non-nil `Logger` whose engine handle is non-nil,
otherwise a fresh no-op logger. -/
def LoggerFromContext (ctx : Ctx) : Logger :=
  match ctx with
  | some (GoValue.loggerVal (some l)) =>
    if l.Zap ≠ none then l else NewNoopLogger
  | _ => NewNoopLogger

/-- A single-character pattern is a prefix of `c :: cs` exactly when it
matches the head. -/
theorem hasPre_single (p c : Char) (cs : List Char) :
    hasPre [p] (c :: cs) = (p == c) := by
  simp [hasPre]

/-- A `replaceAll` pass with a single-character pattern expands each
character independently: occurrences cannot overlap or span. -/
theorem replaceAll_single (p : Char) (rep : List Char) :
    ∀ s : List Char,
      replaceAll s [p] rep = expandBy (fun c => if c = p then rep else [c]) s
  | [] => by simp [replaceAll, expandBy]
  | c :: cs => by
    rw [replaceAll]
    by_cases h : p = c
    · simp only [hasPre_single, h, expandBy]
      simp [h]
      exact replaceAll_single c rep cs
    · simp only [hasPre_single, expandBy]
      have hb : (p == c) = false := by simp [h]
      simp [hb, replaceAll_single p rep cs, Ne.symm h]

/-- `expandBy` distributes over append. -/
theorem expandBy_append (f : Char → List Char) (a b : List Char) :
    expandBy f (a ++ b) = expandBy f a ++ expandBy f b := by
  induction a with
  | nil => simp [expandBy]
  | cons c cs ih => simp [expandBy, ih]

/-- Two `expandBy` passes compose into one. -/
theorem expandBy_expandBy (f g : Char → List Char) (s : List Char) :
    expandBy g (expandBy f s) = expandBy (fun c => expandBy g (f c)) s := by
  induction s with
  | nil => simp [expandBy]
  | cons c cs ih => simp [expandBy, expandBy_append, ih]

/-- Membership in an `expandBy` image comes from some source character. -/
theorem mem_expandBy (x : Char) (f : Char → List Char) (s : List Char) :
    x ∈ expandBy f s ↔ ∃ c ∈ s, x ∈ f c := by
  induction s with
  | nil => simp [expandBy]
  | cons c cs ih => simp [expandBy, ih]

/-- Pointwise-equal expansion functions give equal expansions. -/
theorem expandBy_congr (f g : Char → List Char) (s : List Char)
    (h : ∀ c, f c = g c) : expandBy f s = expandBy g s := by
  induction s with
  | nil => simp [expandBy]
  | cons c cs ih => simp [expandBy, h, ih]

/-- An expansion that keeps every character of `s` is the identity on `s`. -/
theorem expandBy_id_of (f : Char → List Char) (s : List Char)
    (h : ∀ c ∈ s, f c = [c]) : expandBy f s = s := by
  induction s with
  | nil => simp [expandBy]
  | cons c cs ih =>
    rw [expandBy, h c (List.mem_cons_self c cs),
      ih (fun d hd => h d (List.mem_cons_of_mem c hd))]
    simp

/-- The two sequential `replaceAll` passes of `formatError` coincide with the
spec's simultaneous replacement, because the separator contains neither a
newline nor a tab for the second pass to touch. -/
theorem formatError_eq_spec (m : List Char) :
    formatError (some m) = specReplaceNLTab m := by
  show replaceAll (replaceAll m ['\n'] sepChars) ['\t'] sepChars = _
  rw [replaceAll_single, replaceAll_single, expandBy_expandBy,
    specReplaceNLTab]
  apply expandBy_congr
  intro c
  by_cases h1 : c = '\n'
  · subst h1
    decide
  · by_cases h2 : c = '\t'
    · subst h2
      decide
    · simp [h1, h2, expandBy]

/-- The spec-side replacement output never contains a newline. -/
theorem nl_not_mem_spec (s : List Char) : ('\n') ∉ specReplaceNLTab s := by
  intro h
  rw [specReplaceNLTab, mem_expandBy] at h
  obtain ⟨c, _, hx⟩ := h
  by_cases hc : c = '\n' ∨ c = '\t'
  · simp only [hc, if_pos] at hx
    revert hx
    decide
  · simp [hc] at hx
    exact hc (Or.inl hx.symm)

/-- The spec-side replacement output never contains a tab. -/
theorem tab_not_mem_spec (s : List Char) : ('\t') ∉ specReplaceNLTab s := by
  intro h
  rw [specReplaceNLTab, mem_expandBy] at h
  obtain ⟨c, _, hx⟩ := h
  by_cases hc : c = '\n' ∨ c = '\t'
  · simp only [hc, if_pos] at hx
    revert hx
    decide
  · simp [hc] at hx
    exact hc (Or.inr hx.symm)

/-- C1: for every non-null error, `Err` produces a field keyed `"error"`
whose rendered value is the error's message with every newline and every tab
replaced by the literal separator `" | "`, and that value contains neither a
newline nor a tab. -/
theorem err_single_line_spec (m : List Char) :
    Err (some m) = zapString errorKey (specReplaceNLTab m)
      ∧ ('\n') ∉ formatError (some m) ∧ ('\t') ∉ formatError (some m) := by
  refine ⟨?_, ?_, ?_⟩
  · show zapString errorKey (formatError (some m)) = _
    rw [formatError_eq_spec]
  · rw [formatError_eq_spec]
    exact nl_not_mem_spec m
  · rw [formatError_eq_spec]
    exact tab_not_mem_spec m

/-- C2: whatever the slot held before, `SetDefaultLogger(nil)` followed by
`GetDefaultLogger()` yields the no-op variant — equal to the initial default
— and every leveled call on it emits nothing. -/
theorem set_default_nil_resets_to_noop (slot : Logger) :
    GetDefaultLogger (SetDefaultLogger slot none) = initialDefaultLogger
      ∧ ∀ (msg : List Char) (fs : List Field),
        (GetDefaultLogger (SetDefaultLogger slot none)).Debug msg fs = []
        ∧ (GetDefaultLogger (SetDefaultLogger slot none)).Info msg fs = []
        ∧ (GetDefaultLogger (SetDefaultLogger slot none)).Warn msg fs = []
        ∧ (GetDefaultLogger (SetDefaultLogger slot none)).Error msg fs = []
        ∧ (GetDefaultLogger (SetDefaultLogger slot none)).Fatal msg fs = [] :=
  ⟨rfl, fun _ _ => ⟨rfl, rfl, rfl, rfl, rfl⟩⟩

/-- C3 counterexample: on the `NoopLogger` of interface.go, `Zap()` returns
the nil handle, refuting the claim that the returned handle is never null
(the repository's own test asserts `assert.Nil(t, logger.Zap())`). -/
theorem noop_zap_returns_nil_cex : ¬ (NoopLogger.Zap ⟨⟩ ≠ none) :=
  fun h => h rfl

/-- C3 amended: every leveled operation on the NoOp variant is a pure no-op,
and `Zap()` on it returns the nil engine handle (not a non-null inert
handle). -/
theorem noop_leveled_noops_zap_nil :
    (∀ (msg : List Char) (fs : List Field),
      (Logger.noop ⟨⟩).Debug msg fs = []
      ∧ (Logger.noop ⟨⟩).Info msg fs = []
      ∧ (Logger.noop ⟨⟩).Warn msg fs = []
      ∧ (Logger.noop ⟨⟩).Error msg fs = []
      ∧ (Logger.noop ⟨⟩).Fatal msg fs = [])
    ∧ NoopLogger.Zap ⟨⟩ = none :=
  ⟨fun _ _ => ⟨rfl, rfl, rfl, rfl, rfl⟩, rfl⟩

/-- C4: on a concrete logger whose engine handle is absent, every leveled
call silently skips emission instead of dereferencing the absent handle;
this holds for both concrete wrapper variants in the source. -/
theorem leveled_calls_nil_handle_skip (msg : List Char) (fs : List Field) :
    sugarLogger.Debug ⟨none⟩ msg fs = []
    ∧ sugarLogger.Info ⟨none⟩ msg fs = []
    ∧ sugarLogger.Warn ⟨none⟩ msg fs = []
    ∧ sugarLogger.Error ⟨none⟩ msg fs = []
    ∧ sugarLogger.Fatal ⟨none⟩ msg fs = []
    ∧ SugarLogger.Debug ⟨none⟩ msg fs = []
    ∧ SugarLogger.Info ⟨none⟩ msg fs = []
    ∧ SugarLogger.Warn ⟨none⟩ msg fs = []
    ∧ SugarLogger.Error ⟨none⟩ msg fs = []
    ∧ SugarLogger.Fatal ⟨none⟩ msg fs = [] :=
  ⟨rfl, rfl, rfl, rfl, rfl, rfl, rfl, rfl, rfl, rfl⟩

/-- C5: `NewChildLogger` returns the NoOp logger when the parent is nil or
the parent's engine handle is nil; with a handle present it returns a child
named with the prefix when the prefix is non-empty (one more name segment),
and a wrapper sharing the parent's handle when the prefix is empty. -/
theorem new_child_logger_cases (pre : List Char) :
    NewChildLogger none pre = NewNoopLogger
    ∧ (∀ p : Logger, p.Zap = none → NewChildLogger (some p) pre = NewNoopLogger)
    ∧ (∀ (p : Logger) (z : ZapLogger), p.Zap = some z → pre ≠ [] →
        NewChildLogger (some p) pre = Logger.sugarL ⟨some (z.Named pre)⟩
        ∧ (z.Named pre).name = z.name ++ [pre])
    ∧ (∀ (p : Logger) (z : ZapLogger), p.Zap = some z →
        NewChildLogger (some p) [] = Logger.sugarL ⟨some z⟩) := by
  refine ⟨rfl, ?_, ?_, ?_⟩
  · intro p h
    simp [NewChildLogger, h]
  · intro p z h hpre
    exact ⟨by simp [NewChildLogger, h, hpre], rfl⟩
  · intro p z h
    simp [NewChildLogger, h]

/-- C5 witness: the cases of `new_child_logger_cases` applied to a concrete
parent carrying an engine handle, and to a NoOp parent. -/
theorem new_child_logger_cases_witness :
    NewChildLogger (some (Logger.sugarL ⟨some ⟨[], [], 0, [Sink.stdout]⟩⟩)) ['a']
      = Logger.sugarL ⟨some (ZapLogger.Named ⟨[], [], 0, [Sink.stdout]⟩ ['a'])⟩
    ∧ NewChildLogger (some (Logger.noop ⟨⟩)) ['a'] = NewNoopLogger := by
  constructor
  · exact ((new_child_logger_cases ['a']).2.2.1
      (Logger.sugarL ⟨some ⟨[], [], 0, [Sink.stdout]⟩⟩)
      ⟨[], [], 0, [Sink.stdout]⟩ rfl (by decide)).1
  · exact (new_child_logger_cases ['a']).2.1 (Logger.noop ⟨⟩) rfl

/-- C6: `Err(nil)` is a field keyed `"error"` whose value is the empty
string — the field is present, never omitted. -/
theorem err_nil_empty_string_field : Err none = zapString errorKey [] := rfl

/-- C7: with no prior `SetDefaultLogger` call, `GetDefaultLogger()` returns
the NoOp variant the slot was initialized to, and its leveled calls emit
nothing. -/
theorem initial_default_logger_silent :
    GetDefaultLogger initialDefaultLogger = Logger.noop ⟨⟩
    ∧ ∀ (msg : List Char) (fs : List Field),
      (GetDefaultLogger initialDefaultLogger).Debug msg fs = []
      ∧ (GetDefaultLogger initialDefaultLogger).Info msg fs = []
      ∧ (GetDefaultLogger initialDefaultLogger).Warn msg fs = []
      ∧ (GetDefaultLogger initialDefaultLogger).Error msg fs = []
      ∧ (GetDefaultLogger initialDefaultLogger).Fatal msg fs = [] :=
  ⟨rfl, fun _ _ => ⟨rfl, rfl, rfl, rfl, rfl⟩⟩

/-- C8: `With` returns a new handle with the same sinks, level and name plus
the given fields, `Named` a new handle with one more name segment and the
same sinks, level and fields; the receiver is a persistent value whose own
emissions carry exactly its own fields plus the call-site ones; and on an
absent engine handle both return the receiver itself. -/
theorem with_named_non_mutating (z : ZapLogger) (fs : List Field)
    (nm : List Char) :
    (∃ z2, sugarLogger.With ⟨some z⟩ fs = Logger.sugarL ⟨some z2⟩
      ∧ z2.sinks = z.sinks ∧ z2.level = z.level ∧ z2.name = z.name
      ∧ z2.fields = z.fields ++ fs)
    ∧ (∃ z3, sugarLogger.Named ⟨some z⟩ nm = Logger.sugarL ⟨some z3⟩
      ∧ z3.sinks = z.sinks ∧ z3.level = z.level ∧ z3.fields = z.fields
      ∧ z3.name = z.name ++ [nm])
    ∧ (∀ (msg : List Char) (gs : List Field) (r : Record),
        r ∈ sugarLogger.Info ⟨some z⟩ msg gs → r.flds = z.fields ++ gs)
    ∧ (∀ l : sugarLogger, l.Log = none →
        l.With fs = Logger.sugarL l ∧ l.Named nm = Logger.sugarL l) := by
  refine ⟨⟨z.With fs, rfl, rfl, rfl, rfl, rfl⟩,
    ⟨z.Named nm, rfl, rfl, rfl, rfl, rfl⟩, ?_, ?_⟩
  · intro msg gs r hr
    by_cases h : z.level ≤ InfoLevel
    · simp only [sugarLogger.Info, ZapLogger.logAt, if_pos h] at hr
      obtain ⟨s, _, rfl⟩ := List.mem_map.mp hr
      rfl
    · simp [sugarLogger.Info, ZapLogger.logAt, h] at hr
  · intro l hl
    obtain ⟨lo⟩ := l
    simp only at hl
    subst hl
    exact ⟨rfl, rfl⟩

/-- C8 witness: the receiver-emission and absent-handle cases of
`with_named_non_mutating` at concrete inputs. -/
theorem with_named_non_mutating_witness :
    (Record.mk Sink.stdout [] [] InfoLevel []).flds = ([] : List Field) ++ []
    ∧ sugarLogger.With ⟨none⟩ [] = Logger.sugarL ⟨none⟩ := by
  constructor
  · exact (with_named_non_mutating ⟨[], [], InfoLevel, [Sink.stdout]⟩
      [] []).2.2.1 [] [] (Record.mk Sink.stdout [] [] InfoLevel [])
      (by decide)
  · exact ((with_named_non_mutating ⟨[], [], InfoLevel, [Sink.stdout]⟩
      [] []).2.2.2 ⟨none⟩ rfl).1

/-- C9: a context carrying a valid logger (non-nil, with a non-nil engine
handle) yields that logger back; a nil-engine logger, a nil logger value, a
value of another type, or no value at all yield the NoOp logger instead. -/
theorem logger_from_context_spec (c : Ctx) (l : Logger) :
    (l.Zap ≠ none → LoggerFromContext (LoggerToContext c l) = l)
    ∧ (l.Zap = none → LoggerFromContext (LoggerToContext c l) = NewNoopLogger)
    ∧ LoggerFromContext (none : Ctx) = NewNoopLogger
    ∧ LoggerFromContext (some GoValue.otherVal) = NewNoopLogger
    ∧ LoggerFromContext (some (GoValue.loggerVal none)) = NewNoopLogger := by
  refine ⟨?_, ?_, rfl, rfl, rfl⟩
  · intro h
    simp [LoggerFromContext, LoggerToContext, h]
  · intro h
    simp [LoggerFromContext, LoggerToContext, h]

/-- C9 witness: a valid attached logger is returned as is; an attached NoOp
logger (nil engine handle) falls back to the NoOp logger. -/
theorem logger_from_context_spec_witness :
    LoggerFromContext
        (LoggerToContext none (Logger.sugarL ⟨some ⟨[], [], 0, [Sink.stdout]⟩⟩))
      = Logger.sugarL ⟨some ⟨[], [], 0, [Sink.stdout]⟩⟩
    ∧ LoggerFromContext (LoggerToContext none (Logger.noop ⟨⟩))
      = NewNoopLogger := by
  constructor
  · exact (logger_from_context_spec none
      (Logger.sugarL ⟨some ⟨[], [], 0, [Sink.stdout]⟩⟩)).1 (by decide)
  · exact (logger_from_context_spec none (Logger.noop ⟨⟩)).2.1 rfl

/-- C10: the error-message normalization is idempotent — formatting an
already-formatted message changes nothing, because one pass leaves neither
newlines nor tabs behind. -/
theorem format_error_idempotent (s : List Char) :
    formatError (some (formatError (some s))) = formatError (some s) := by
  rw [formatError_eq_spec]
  conv =>
    lhs
    rw [specReplaceNLTab]
  apply expandBy_id_of
  intro c hc
  rw [formatError_eq_spec] at hc
  have h1 : c ≠ '\n' := fun e => nl_not_mem_spec s (e ▸ hc)
  have h2 : c ≠ '\t' := fun e => tab_not_mem_spec s (e ▸ hc)
  simp [h1, h2]

end Trace
